import Mathlib

/-!
Verification development for the roborev TUI (internal/tui, file `tui.go`).

The Go source is shallowly embedded below:
* the data carried by `storage.ReviewJob`, `storage.DaemonStatus` and
  `storage.Review` is modelled with the fields the TUI reads (their shapes are
  fixed by the spec's §3/§6 data model: integer id, status string, git ref,
  repository name, agent name, optional timestamps, optional error text);
* Go `int` becomes `Int`; Go pointers become `Option`; times become `Int`
  instants (only differences of times are ever displayed);
* `Model.Update` becomes the pure function `Update : Model → Msg → Model × Cmd`
  where `Cmd` names the command value the Go code returns (`nil`, `tea.Quit`,
  `m.fetchReview id`, or the tick/fetch batch);
* the renderers become pure functions parametrised by a `RenderCtx` holding the
  current wall-clock instant, the duration formatter and the `lipgloss` style
  `Render` functions, all of which are opaque deterministic string
  transformers from the embedding's point of view.
-/

/-- Status strings of `storage.JobStatus` (spec §6: `queued|running|done|failed`). -/
def JobStatusQueued : String := "queued"

def JobStatusRunning : String := "running"

def JobStatusDone : String := "done"

def JobStatusFailed : String := "failed"

/-- The fields of `storage.ReviewJob` read by the TUI (spec §3 "Job"). -/
structure ReviewJob where
  ID : Int
  GitRef : String
  RepoName : String
  Agent : String
  Status : String
  StartedAt : Option Int
  FinishedAt : Option Int
  Error : String
deriving DecidableEq, Repr, Inhabited

/-- The fields of `storage.DaemonStatus` (spec §3 "DaemonStatus"). -/
structure DaemonStatus where
  ActiveWorkers : Int
  MaxWorkers : Int
  QueuedJobs : Int
  RunningJobs : Int
  CompletedJobs : Int
  FailedJobs : Int
deriving DecidableEq, Repr, Inhabited

/-- The fields of `storage.Review` read by the TUI (spec §3 "Review"). -/
structure Review where
  Agent : String
  Output : String
  Job : Option ReviewJob
deriving DecidableEq, Repr, Inhabited

/-- The `view` enumeration of tui.go (`viewQueue`, `viewReview`). -/
inductive ViewKind where
  | queue
  | review
deriving DecidableEq, Repr, Inhabited

/-- The `Model` struct of tui.go. -/
structure Model where
  serverAddr : String
  jobs : List ReviewJob
  status : DaemonStatus
  selectedIdx : Int
  currentView : ViewKind
  currentReview : Option Review
  reviewScroll : Int
  width : Int
  height : Int
  err : Option String
deriving DecidableEq, Repr, Inhabited

/-- `NewModel` of tui.go: unmentioned Go fields take their zero values. -/
def NewModel (serverAddr : String) : Model :=
  { serverAddr := serverAddr
    jobs := []
    status := ⟨0, 0, 0, 0, 0, 0⟩
    selectedIdx := 0
    currentView := .queue
    currentReview := none
    reviewScroll := 0
    width := 80
    height := 24
    err := none }

/-- The messages consumed by `Model.Update`.  `reviewMsg` is a Go pointer and
so carries an `Option Review`; `errMsg` carries the error's message string. -/
inductive Msg where
  | key (s : String)
  | windowSize (width height : Int)
  | tick
  | jobs (l : List ReviewJob)
  | status (s : DaemonStatus)
  | review (r : Option Review)
  | err (e : String)
deriving DecidableEq, Repr

/-- The command values `Model.Update` returns: `nil`, `tea.Quit`,
`m.fetchReview jobID`, or `tea.Batch(m.tick(), m.fetchJobs(), m.fetchStatus())`
(the tick case).  Every constructor other than `fetchReview` issues zero
review/network fetches for a specific job. -/
inductive Cmd where
  | none
  | quit
  | fetchReview (jobID : Int)
  | pollBatch
deriving DecidableEq, Repr

/-- `Model.Update` of tui.go, lines 148-232.  The only deviation forced by the
embedding: Go's `m.jobs[m.selectedIdx]` panics when the index is out of range,
so the safe accessor `getD` stands in for it; the theorems about the `enter`
key therefore carry the in-range hypotheses that hold in every reachable state
(see the selection invariant). -/
def Update (m : Model) (msg : Msg) : Model × Cmd :=
  match msg with
  | .key s =>
    if s = "ctrl+c" ∨ s = "q" then
      if m.currentView = .review then
        ({ m with currentView := .queue, currentReview := none, reviewScroll := 0 }, .none)
      else
        (m, .quit)
    else if s = "up" ∨ s = "k" then
      if m.currentView = .queue then
        (if m.selectedIdx > 0 then { m with selectedIdx := m.selectedIdx - 1 } else m, .none)
      else
        (if m.reviewScroll > 0 then { m with reviewScroll := m.reviewScroll - 1 } else m, .none)
    else if s = "down" ∨ s = "j" then
      if m.currentView = .queue then
        (if m.selectedIdx < (m.jobs.length : Int) - 1 then
          { m with selectedIdx := m.selectedIdx + 1 } else m, .none)
      else
        ({ m with reviewScroll := m.reviewScroll + 1 }, .none)
    else if s = "enter" then
      if m.currentView = .queue ∧ 0 < m.jobs.length then
        let job := m.jobs.getD m.selectedIdx.toNat default
        if job.Status = JobStatusDone then
          (m, .fetchReview job.ID)
        else if job.Status = JobStatusFailed then
          ({ m with
              currentReview := some ⟨job.Agent, "Job failed:\n\n" ++ job.Error, some job⟩
              currentView := .review
              reviewScroll := 0 }, .none)
        else
          (m, .none)
      else
        (m, .none)
    else if s = "esc" then
      if m.currentView = .review then
        ({ m with currentView := .queue, currentReview := none, reviewScroll := 0 }, .none)
      else
        (m, .none)
    else
      (m, .none)
  | .windowSize w h => ({ m with width := w, height := h }, .none)
  | .tick => (m, .pollBatch)
  | .jobs l =>
    let m1 := { m with jobs := l }
    (if m1.selectedIdx ≥ (m1.jobs.length : Int) then
      { m1 with selectedIdx := max 0 ((m1.jobs.length : Int) - 1) } else m1, .none)
  | .status s => ({ m with status := s }, .none)
  | .review r => ({ m with currentReview := r, currentView := .review, reviewScroll := 0 }, .none)
  | .err e => ({ m with err := some e }, .none)

/-! ## The text wrapper (`wrapText`, tui.go lines 359-389) -/

/-- `strings.Split(text, "\n")`: every line of the text, empty lines kept. -/
def splitLinesL : List Char → List (List Char)
  | [] => [[]]
  | c :: cs =>
    if c = '\n' then [] :: splitLinesL cs
    else
      match splitLinesL cs with
      | [] => [[c]]
      | l :: ls => (c :: l) :: ls

/-- The inner loop of `wrapText` searching `i` downward from `w/2 + n` for a
space: `for i := width; i > width/2; i-- { if i < len(line) && line[i] == ' ' ... }`.
The counter `n` counts the remaining candidate indices; the current index is
`w/2 + n`. -/
def scanBreak (line : List Char) (w : Nat) : Nat → Nat
  | 0 => w
  | n + 1 =>
    let i := w / 2 + n + 1
    if i < line.length ∧ line.getD i 'A' = ' ' then i else scanBreak line w n

/-- `breakPoint` as computed by `wrapText` for a line with `len(line) > width`:
the largest `i` in `(width/2, width]` with `line[i] == ' '`, else `width`. -/
def breakPoint (line : List Char) (w : Nat) : Nat :=
  scanBreak line w (w - w / 2)

/-- The `for len(line) > width` loop of `wrapText`.  The loop is embedded with
an explicit iteration budget; `wrapLine` supplies `line.length`, which is
sufficient because every iteration removes at least one character (for
`w ≥ 1`, see `wrapLoopF_fuel`), so the budget-exhausted branch is reached only
with an empty line, where it agrees with the loop exit.  (For `w = 0` the Go
loop would not terminate; `wrapText` never runs the loop with `w = 0` because
non-positive widths are replaced by 100 first.) -/
def wrapLoopF (w : Nat) : Nat → List Char → List (List Char)
  | 0, line => if line.length = 0 then [] else [line]
  | fuel + 1, line =>
    if w < line.length then
      let bp := breakPoint line w
      line.take bp :: wrapLoopF w fuel ((line.drop bp).dropWhile (· == ' '))
    else if line.length = 0 then [] else [line]

/-- One input line's contribution to the `wrapText` result: appended whole when
it fits, else the split loop. -/
def wrapLine (line : List Char) (w : Nat) : List (List Char) :=
  if line.length ≤ w then [line] else wrapLoopF w line.length line

/-- The split loop run on a (remainder) line with a fresh sufficient budget. -/
def wrapRest (line : List Char) (w : Nat) : List (List Char) :=
  wrapLoopF w line.length line

/-- The width actually used by `wrapText`: `if width <= 0 { width = 100 }`. -/
def effWidth (width : Int) : Nat :=
  if width ≤ 0 then 100 else width.toNat

/-- `wrapText` of tui.go on character lists. -/
def wrapTextL (text : List Char) (width : Int) : List (List Char) :=
  ((splitLinesL text).map (fun l => wrapLine l (effWidth width))).flatten

/-- `wrapText` of tui.go: wrap `text` to `width` columns. -/
def wrapText (text : String) (width : Int) : List String :=
  (wrapTextL text.toList width).map (fun l => String.mk l)

example : wrapText "hello world" 80 = ["hello world"] := by decide
example : wrapText "hello world" 6 = ["hello", "world"] := by decide
example : wrapText "abcdefgh" 4 = ["abcd", "efgh"] := by decide
example : wrapText "ab\n\ncd" 10 = ["ab", "", "cd"] := by decide
example : wrapText "aaaa   " 4 = ["aaaa"] := by decide
example : wrapText "ab cdefgh" 4 = ["ab c", "defg", "h"] := by decide

/-! ## The renderers (`View`, `renderQueueView`, `renderJobLine`,
`renderReviewView`, tui.go lines 234-357 and 391-432) -/

/-- Context the renderers read from outside the `Model`: the wall-clock
instant (`time.Since`), `Duration.Round(time.Second).String()` as an opaque
formatter, and the `Render` methods of the fixed `lipgloss` styles as opaque
deterministic string transformers. -/
structure RenderCtx where
  now : Int
  fmtDur : Int → String
  titleR : String → String
  statusR : String → String
  selectedR : String → String
  queuedR : String → String
  runningR : String → String
  doneR : String → String
  failedR : String → String
  helpR : String → String

/-- `fmt.Sprintf` left-justified minimum-width padding (`%-4s` etc.): pad with
spaces on the right up to `n`, never truncating. -/
def padRight (s : String) (n : Nat) : String :=
  s ++ String.mk (List.replicate (n - s.length) ' ')

/-- `strings.Repeat(s, n)` for a repeat count that is an `Int` in Go. -/
def strRepeat (c : Char) (n : Int) : String :=
  String.mk (List.replicate n.toNat c)

/-- `visibleJobs` in `renderQueueView`: `m.height - reservedLines`, floored at 3. -/
def visibleJobsOf (height : Int) : Int :=
  let reservedLines : Int := 9
  let v := height - reservedLines
  if v < 3 then 3 else v

/-- The list windower of `renderQueueView` (lines 272-285): the visible index
range `[start, end)` of a list of `n` jobs in a viewport of `v` rows with the
selection at `s`. -/
def windowOf (n v s : Int) : Int × Int :=
  if n > v then
    let start := s - v / 2
    let start := if start < 0 then 0 else start
    let e := start + v
    if e > n then (n - v, n) else (start, e)
  else
    (0, n)

/-- The `[showing X-Y of N]` footer string of `renderQueueView` (line 300). -/
def scrollInfoStr (start e n : Int) : String :=
  "[showing " ++ toString (start + 1) ++ "-" ++ toString e ++ " of " ++ toString n ++ "]"

/-- `renderJobLine` of tui.go. -/
def renderJobLine (ctx : RenderCtx) (job : ReviewJob) : String :=
  let ref := if 17 < job.GitRef.length then job.GitRef.take 17 else job.GitRef
  let repo := if 15 < job.RepoName.length then job.RepoName.take 12 ++ "..." else job.RepoName
  let agent := if 12 < job.Agent.length then job.Agent.take 12 else job.Agent
  let elapsed :=
    match job.StartedAt, job.FinishedAt with
    | some st, some fin => ctx.fmtDur (fin - st)
    | some st, none => ctx.fmtDur (ctx.now - st)
    | none, _ => ""
  let status := job.Status
  let styledStatus :=
    if job.Status = JobStatusQueued then ctx.queuedR status
    else if job.Status = JobStatusRunning then ctx.runningR status
    else if job.Status = JobStatusDone then ctx.doneR status
    else if job.Status = JobStatusFailed then ctx.failedR status
    else status
  let padding : Int := 8 - (status.length : Int)
  let styledStatus := if padding > 0 then styledStatus ++ strRepeat ' ' padding else styledStatus
  padRight (toString job.ID) 4 ++ " " ++ padRight ref 17 ++ " " ++ padRight repo 15 ++ " " ++
    padRight agent 12 ++ " " ++ styledStatus ++ " " ++ elapsed

/-- `renderQueueView` of tui.go. -/
def renderQueueView (ctx : RenderCtx) (m : Model) : String :=
  let b := ctx.titleR "RoboRev Queue" ++ "\n"
  let statusLine :=
    "Workers: " ++ toString m.status.ActiveWorkers ++ "/" ++ toString m.status.MaxWorkers ++
    " | Queued: " ++ toString m.status.QueuedJobs ++
    " | Running: " ++ toString m.status.RunningJobs ++
    " | Done: " ++ toString m.status.CompletedJobs ++
    " | Failed: " ++ toString m.status.FailedJobs ++
    " | Size: " ++ toString m.width ++ "x" ++ toString m.height
  let b := b ++ ctx.statusR statusLine ++ "\n\n"
  let b :=
    if m.jobs.length = 0 then
      b ++ "No jobs in queue\n"
    else
      let header := "  " ++ padRight "ID" 4 ++ " " ++ padRight "Ref" 17 ++ " " ++
        padRight "Repo" 15 ++ " " ++ padRight "Agent" 12 ++ " " ++ padRight "Status" 8 ++
        " " ++ "Time"
      let b := b ++ ctx.statusR header ++ "\n"
      let b := b ++ "  " ++ strRepeat '-' (min (m.width - 4) 78) ++ "\n"
      let v := visibleJobsOf m.height
      let se := windowOf (m.jobs.length : Int) v m.selectedIdx
      let rows :=
        String.join ((List.range' se.1.toNat (se.2 - se.1).toNat).map (fun i =>
          let job := m.jobs.getD i default
          let line := renderJobLine ctx job
          (if (i : Int) = m.selectedIdx then ctx.selectedR ("> " ++ line) else "  " ++ line) ++
            "\n"))
      let b := b ++ rows
      let b :=
        if (m.jobs.length : Int) > v then
          b ++ ctx.statusR (scrollInfoStr se.1 se.2 (m.jobs.length : Int)) ++ "\n"
        else b
      b
  b ++ ctx.helpR "up/down: navigate | enter: view review | q: quit"

/-- The scroll clamp of `renderReviewView` (lines 412-415): the first displayed
wrapped line, given the stored scroll and the wrapped line count. -/
def reviewStartOf (scroll : Int) (n : Nat) : Int :=
  if scroll ≥ (n : Int) then max 0 ((n : Int) - 1) else scroll

/-- `renderReviewView` of tui.go.  The Go code reads `m.currentReview` after
`View` has checked it is non-nil; the embedding passes that non-nil `Review`
explicitly. -/
def renderReviewView (ctx : RenderCtx) (m : Model) (review : Review) : String :=
  let b :=
    (match review.Job with
      | some job =>
        let ref := if 17 < job.GitRef.length then job.GitRef.take 17 else job.GitRef
        ctx.titleR ("Review: " ++ ref ++ " (" ++ review.Agent ++ ")")
      | none => ctx.titleR "Review") ++ "\n"
  let wrapWidth := min (m.width - 2) 100
  let lines := wrapText review.Output wrapWidth
  let visibleLines := m.height - 5
  let start := reviewStartOf m.reviewScroll lines.length
  let e := min (start + visibleLines) (lines.length : Int)
  let b := b ++
    String.join ((List.range' start.toNat (e - start).toNat).map
      (fun i => lines.getD i "" ++ "\n"))
  let b :=
    if (lines.length : Int) > visibleLines then
      b ++ ctx.statusR ("[" ++ toString (start + 1) ++ "-" ++ toString e ++ " of " ++
        toString (lines.length : Int) ++ " lines]") ++ "\n"
    else b
  b ++ ctx.helpR "up/down: scroll | esc/q: back"

/-- `Model.View` of tui.go: `renderReviewView` only when the Review screen is
active and a Review is actually held, else the queue screen. -/
def View (ctx : RenderCtx) (m : Model) : String :=
  match m.currentView, m.currentReview with
  | .review, some r => renderReviewView ctx m r
  | _, _ => renderQueueView ctx m

/-- The wrapped-line count of the Review screen's content at the current
width (the bound the spec's scroll-offset invariant refers to). -/
def totalWrappedLines (m : Model) : Nat :=
  match m.currentReview with
  | some r => (wrapText r.Output (min (m.width - 2) 100)).length
  | none => 0

/-- Reachable states of the TUI: some initial model, closed under `Update`
on arbitrary messages. -/
inductive Reachable : Model → Prop where
  | start (addr : String) : Reachable (NewModel addr)
  | step (m : Model) (msg : Msg) : Reachable m → Reachable (Update m msg).1

/-- The spec's selection invariant (§3): `selectedIdx ∈ [0, len(jobs)-1]` when
the job list is non-empty, and `0` when it is empty. -/
def SelInv (m : Model) : Prop :=
  (m.jobs.length = 0 → m.selectedIdx = 0) ∧
  (0 < m.jobs.length → 0 ≤ m.selectedIdx ∧ m.selectedIdx < (m.jobs.length : Int))

instance (m : Model) : Decidable (SelInv m) := by
  unfold SelInv; infer_instance


/-- A concrete render context for instantiations: the identity styling and a
trivial duration formatter. -/
def idCtx : RenderCtx :=
  ⟨0, fun _ => "", id, id, id, id, id, id, id, id⟩

/-! ## Claim theorems -/

/-- C8: a `FetchFailed(error)` event changes only the stored error field of
the state (overwriting any prior error); jobs, daemon status, active view,
selected index, scroll offset and terminal dimensions are unchanged, and no
command is issued. -/
theorem errMsg_changes_only_err (m : Model) (e : String) :
    (Update m (.err e)).1.err = some e ∧
    (Update m (.err e)).1.jobs = m.jobs ∧
    (Update m (.err e)).1.status = m.status ∧
    (Update m (.err e)).1.currentView = m.currentView ∧
    (Update m (.err e)).1.currentReview = m.currentReview ∧
    (Update m (.err e)).1.selectedIdx = m.selectedIdx ∧
    (Update m (.err e)).1.reviewScroll = m.reviewScroll ∧
    (Update m (.err e)).1.width = m.width ∧
    (Update m (.err e)).1.height = m.height ∧
    (Update m (.err e)).2 = Cmd.none :=
  ⟨rfl, rfl, rfl, rfl, rfl, rfl, rfl, rfl, rfl, rfl⟩

/-- C9: a `ReviewFetched(review)` event yields, in the single returned state,
the Review screen holding exactly the delivered payload with scroll offset 0:
the variant change and the payload assignment happen in one transition. -/
theorem reviewMsg_atomic (m : Model) (r : Option Review) :
    Update m (.review r) =
      ({ m with currentReview := r, currentView := .review, reviewScroll := 0 }, Cmd.none) :=
  rfl

/-- C2: the rendered frame never depends on the stored fetch error: two states
that differ only in the `err` field render character-for-character identically,
on the Queue screen and on the Review screen alike. -/
theorem view_ignores_err (ctx : RenderCtx) (m : Model) (e₁ e₂ : Option String) :
    View ctx { m with err := e₁ } = View ctx { m with err := e₂ } :=
  rfl

/-- C10: when the Review screen is nominally active but no Review payload is
held, `View` falls back to the Queue screen; `renderReviewView` is only ever
invoked with a concretely held (non-nil) Review. -/
theorem view_nil_review_safe (ctx : RenderCtx) (m : Model) :
    (m.currentReview = none → View ctx m = renderQueueView ctx m) ∧
    (m.currentView ≠ .review → View ctx m = renderQueueView ctx m) ∧
    (∀ r, m.currentView = .review → m.currentReview = some r →
      View ctx m = renderReviewView ctx m r) := by
  cases m with
  | mk sa jobs st sel cv cr rs w h e =>
    cases cv <;> cases cr <;>
      refine ⟨fun h1 => ?_, fun h2 => ?_, fun r h3 h4 => ?_⟩ <;>
        first
        | rfl
        | (cases h4; rfl)
        | simp_all [View]

theorem view_nil_review_safe_witness :
    View idCtx { NewModel "" with currentView := .review } =
      renderQueueView idCtx { NewModel "" with currentView := .review } :=
  (view_nil_review_safe idCtx { NewModel "" with currentView := .review }).1 rfl

/-- C4: with the Queue screen active and a validly selected job, `enter` on a
job with status `failed` synthesizes a Review locally from the job's stored
error text (output `"Job failed:\n\n" ++ error`, so it begins with
`"Job failed:\n\n"` followed by the error), transitions directly to the Review
screen with scroll reset to 0 and issues no command (in particular no fetch);
on a job whose status is neither `done` nor `failed`, `enter` is a no-op. -/
theorem enter_on_selected_job (m : Model)
    (hq : m.currentView = .queue) (hne : m.jobs ≠ [])
    (h0 : 0 ≤ m.selectedIdx) (hlt : m.selectedIdx < (m.jobs.length : Int)) :
    (((m.jobs.getD m.selectedIdx.toNat default).Status = JobStatusFailed →
      Update m (.key "enter") =
        ({ m with
            currentReview := some
              ⟨(m.jobs.getD m.selectedIdx.toNat default).Agent,
               "Job failed:\n\n" ++ (m.jobs.getD m.selectedIdx.toNat default).Error,
               some (m.jobs.getD m.selectedIdx.toNat default)⟩
            currentView := .review
            reviewScroll := 0 }, Cmd.none))) ∧
    ((m.jobs.getD m.selectedIdx.toNat default).Status ≠ JobStatusDone →
      (m.jobs.getD m.selectedIdx.toNat default).Status ≠ JobStatusFailed →
      Update m (.key "enter") = (m, Cmd.none)) := by
  have c1 : ¬("enter" = "ctrl+c" ∨ "enter" = "q") := by decide
  have c2 : ¬("enter" = "up" ∨ "enter" = "k") := by decide
  have c3 : ¬("enter" = "down" ∨ "enter" = "j") := by decide
  have hpos : 0 < m.jobs.length := List.length_pos.mpr hne
  constructor
  · intro hf
    simp only [Update]
    rw [if_neg c1, if_neg c2, if_neg c3, if_pos trivial, if_pos ⟨hq, hpos⟩,
      if_neg (by rw [hf]; decide), if_pos hf]
  · intro hd hf
    simp only [Update]
    rw [if_neg c1, if_neg c2, if_neg c3, if_pos trivial, if_pos ⟨hq, hpos⟩,
      if_neg hd, if_neg hf]

/-- The failed job of the spec's §8 scenario 7. -/
def job7 : ReviewJob :=
  ⟨7, "abc1234", "repo", "agent", "failed", none, none, "panic: nil pointer"⟩

theorem enter_on_selected_job_witness :
    Update { NewModel "" with jobs := [job7] } (.key "enter") =
      ({ NewModel "" with
          jobs := [job7]
          currentReview := some ⟨job7.Agent, "Job failed:\n\n" ++ job7.Error, some job7⟩
          currentView := .review
          reviewScroll := 0 }, Cmd.none) := by
  exact (enter_on_selected_job { NewModel "" with jobs := [job7] }
    rfl (by decide) (by decide) (by decide)).1 (by decide)

/-- C6: the list windower returns the whole list when `n ≤ v`; for `n > v` it
returns a window of length exactly `v` with `0 ≤ start` and `end ≤ n` that
contains the selection whenever `0 ≤ s < n`; concretely, 100 jobs in a
viewport of 10 with the selection at 50 give the window `[45, 55)` whose
footer reads `"[showing 46-55 of 100]"`; and the viewport capacity derived
from the terminal height is always at least 3. -/
theorem windower_contract (n v s : Int) (hv : 3 ≤ v) :
    (n ≤ v → windowOf n v s = (0, n)) ∧
    (v < n → (windowOf n v s).2 - (windowOf n v s).1 = v ∧
      0 ≤ (windowOf n v s).1 ∧ (windowOf n v s).2 ≤ n) ∧
    (v < n → 0 ≤ s → s < n → (windowOf n v s).1 ≤ s ∧ s < (windowOf n v s).2) ∧
    windowOf 100 10 50 = (45, 55) ∧
    scrollInfoStr 45 55 100 = "[showing 46-55 of 100]" ∧
    (∀ height : Int, 3 ≤ visibleJobsOf height) := by
  refine ⟨fun h => ?_, fun h => ?_, fun h h0 h1 => ?_, by decide, by decide, fun h => ?_⟩
  · unfold windowOf
    rw [if_neg (by omega)]
  · unfold windowOf
    dsimp only
    split_ifs <;> simp <;> omega
  · unfold windowOf
    dsimp only
    split_ifs <;> simp <;> omega
  · simp only [visibleJobsOf]
    split_ifs <;> omega

theorem windower_contract_witness :
    windowOf 100 10 50 = (45, 55) ∧
    scrollInfoStr 45 55 100 = "[showing 46-55 of 100]" :=
  ⟨(windower_contract 100 10 50 (by decide)).2.2.2.1,
   (windower_contract 100 10 50 (by decide)).2.2.2.2.1⟩

/-- C3: every transition preserves the selection invariant (`selectedIdx` in
`[0, len(jobs)-1]` when the job list is non-empty, `0` when empty), and a
`JobsFetched` event shrinking the list while the last entry is selected clamps
the selection to `max 0 (k'-1)`. -/
theorem sel_invariant (m : Model) (msg : Msg) (hinv : SelInv m) :
    SelInv (Update m msg).1 ∧
    (∀ l : List ReviewJob, msg = .jobs l →
      m.selectedIdx = (m.jobs.length : Int) - 1 → l.length < m.jobs.length →
      ((Update m msg).1).selectedIdx = max 0 ((l.length : Int) - 1)) := by
  obtain ⟨h1, h2⟩ := hinv
  have h0 : 0 ≤ m.selectedIdx := by
    rcases Nat.eq_zero_or_pos m.jobs.length with h | h
    · simp [h1 h]
    · exact (h2 h).1
  constructor
  · cases msg with
    | key s =>
      simp only [Update]
      split_ifs <;>
        first
        | exact ⟨h1, h2⟩
        | (constructor <;> intro hl <;> simp_all <;> omega)
    | windowSize w h => exact ⟨h1, h2⟩
    | tick => exact ⟨h1, h2⟩
    | jobs l =>
      simp only [Update]
      split_ifs with hc <;> constructor <;> intro hl <;> simp_all
    | status s => exact ⟨h1, h2⟩
    | review r => exact ⟨h1, h2⟩
    | err e => exact ⟨h1, h2⟩
  · intro l hmsg hsel hshrink
    subst hmsg
    simp only [Update]
    rw [if_pos (by omega)]

/-- A queued job used in concrete instantiations. -/
def jobA : ReviewJob := ⟨1, "ref1", "repo1", "agent", "queued", none, none, ""⟩

theorem sel_invariant_witness :
    SelInv (Update { NewModel "" with jobs := [jobA, jobA], selectedIdx := 1 }
      (.jobs [jobA])).1 ∧
    ((Update { NewModel "" with jobs := [jobA, jobA], selectedIdx := 1 }
      (.jobs [jobA])).1).selectedIdx = max 0 ((([jobA] : List ReviewJob).length : Int) - 1) := by
  have h := sel_invariant { NewModel "" with jobs := [jobA, jobA], selectedIdx := 1 }
    (.jobs [jobA]) (by decide)
  exact ⟨h.1, h.2 [jobA] rfl (by decide) (by decide)⟩

/-- C1 (amended): the stored scroll offset of the Review screen is always
nonnegative in every reachable state, but a `down`/`j` key on the Review
screen increments it unconditionally — it is not bounded by the wrapped line
count at this layer.  The renderer clamps the offset at display time: the
first displayed line index always lies in `[0, max 0 (totalWrappedLines-1)]`. -/
theorem scroll_clamped :
    (∀ m : Model, Reachable m → 0 ≤ m.reviewScroll) ∧
    (∀ m : Model, m.currentView = .review →
      ((Update m (.key "down")).1).reviewScroll = m.reviewScroll + 1) ∧
    (∀ (scroll : Int) (n : Nat), 0 ≤ scroll →
      0 ≤ reviewStartOf scroll n ∧ reviewStartOf scroll n ≤ max 0 ((n : Int) - 1)) := by
  refine ⟨?_, ?_, ?_⟩
  · intro m h
    induction h with
    | start addr => exact Int.le_refl 0
    | step m msg hm ih =>
      cases msg with
      | key s =>
        simp only [Update]
        split_ifs <;> simp_all <;> omega
      | windowSize w h => exact ih
      | tick => exact ih
      | jobs l =>
        simp only [Update]
        split_ifs <;> exact ih
      | status s => exact ih
      | review r => simp only [Update]; decide
      | err e => exact ih
  · intro m hm
    simp only [Update]
    rw [if_neg (by decide), if_neg (by decide), if_pos (Or.inl trivial),
      if_neg (by rw [hm]; decide)]
  · intro scroll n hs
    unfold reviewStartOf
    split_ifs <;> omega

/-- The state reached from a fresh model by delivering a one-line Review and
pressing `down` twice while on the Review screen. -/
def cexModel : Model :=
  (Update (Update (Update (NewModel "")
    (.review (some ⟨"agent", "a", none⟩))).1 (.key "down")).1 (.key "down")).1

/-- C1 as stated is false: `cexModel` is reachable, has the Review screen
active, and its stored scroll offset (2) exceeds
`max 0 (totalWrappedLines - 1)` (its one-line Review wraps to 1 line, so the
bound is 0). -/
theorem scroll_bound_cex :
    Reachable cexModel ∧ cexModel.currentView = .review ∧
    ¬(cexModel.reviewScroll ≤ max 0 ((totalWrappedLines cexModel : Int) - 1)) := by
  refine ⟨?_, by decide, by decide⟩
  show Reachable (Update (Update (Update (NewModel "")
    (.review (some ⟨"agent", "a", none⟩))).1 (.key "down")).1 (.key "down")).1
  exact .step _ _ (.step _ _ (.step _ _ (.start "")))

theorem scroll_clamped_witness :
    0 ≤ (NewModel "").reviewScroll ∧
    ((Update { NewModel "" with currentView := .review } (.key "down")).1).reviewScroll =
      ({ NewModel "" with currentView := .review } : Model).reviewScroll + 1 ∧
    (0 ≤ reviewStartOf 5 2 ∧ reviewStartOf 5 2 ≤ max 0 (((2 : Nat) : Int) - 1)) :=
  ⟨scroll_clamped.1 (NewModel "") (.start ""),
   scroll_clamped.2.1 { NewModel "" with currentView := .review } rfl,
   scroll_clamped.2.2 5 2 (by decide)⟩

/-! ## Wrapper lemmas -/

theorem length_dropWhile_le (p : Char → Bool) (l : List Char) :
    (l.dropWhile p).length ≤ l.length := by
  induction l with
  | nil => simp [List.dropWhile]
  | cons c cs ih =>
    by_cases h : p c
    · simp only [List.dropWhile, h]
      exact Nat.le_succ_of_le ih
    · simp [List.dropWhile, h]

theorem scanBreak_le (line : List Char) (w : Nat) (n : Nat) :
    scanBreak line w n = w ∨
      (w / 2 < scanBreak line w n ∧ scanBreak line w n ≤ w / 2 + n) := by
  induction n with
  | zero => left; rfl
  | succ n ih =>
    simp only [scanBreak]
    split_ifs with h
    · right; omega
    · rcases ih with h1 | h1
      · left; exact h1
      · right; omega

theorem breakPoint_pos (line : List Char) (w : Nat) (hw : 1 ≤ w) :
    1 ≤ breakPoint line w := by
  unfold breakPoint
  rcases scanBreak_le line w (w - w / 2) with h | h <;> omega

theorem breakPoint_le (line : List Char) (w : Nat) :
    breakPoint line w ≤ w := by
  unfold breakPoint
  rcases scanBreak_le line w (w - w / 2) with h | h <;> omega

theorem rest_length_lt (line : List Char) (w : Nat) (hw : 1 ≤ w)
    (hl : w < line.length) :
    ((line.drop (breakPoint line w)).dropWhile (· == ' ')).length < line.length := by
  have h1 := length_dropWhile_le (· == ' ') (line.drop (breakPoint line w))
  have h2 : (line.drop (breakPoint line w)).length = line.length - breakPoint line w :=
    List.length_drop _ _
  have h3 := breakPoint_pos line w hw
  omega

theorem wrapLoopF_fuel (w : Nat) (hw : 1 ≤ w) :
    ∀ (f₁ : Nat), ∀ (f₂ : Nat) (line : List Char),
      line.length ≤ f₁ → line.length ≤ f₂ →
      wrapLoopF w f₁ line = wrapLoopF w f₂ line := by
  intro f₁
  induction f₁ with
  | zero =>
    intro f₂ line h1 h2
    have hnil : line = [] := List.length_eq_zero.mp (Nat.le_zero.mp h1)
    subst hnil
    cases f₂ <;> simp [wrapLoopF]
  | succ f ih =>
    intro f₂ line h1 h2
    cases f₂ with
    | zero =>
      have hnil : line = [] := List.length_eq_zero.mp (Nat.le_zero.mp h2)
      subst hnil
      simp [wrapLoopF]
    | succ f₂ =>
      simp only [wrapLoopF]
      split_ifs with hc
      · have hr := rest_length_lt line w hw hc
        rw [ih f₂ ((line.drop (breakPoint line w)).dropWhile (· == ' '))
          (by omega) (by omega)]
      · rfl
      · rfl

/-- The decomposition witnessing losslessness of the wrapper: `JoinSp cs l`
says the original line `l` is exactly the display chunks `cs` in order,
interleaved with runs of spaces (the characters consumed at break points);
the final separator accounts for a dropped all-space tail. -/
inductive JoinSp : List (List Char) → List Char → Prop where
  | nil : JoinSp [] []
  | cons (c sep : List Char) (cs : List (List Char)) (rest : List Char) :
      (∀ x ∈ sep, x = ' ') → JoinSp cs rest → JoinSp (c :: cs) (c ++ sep ++ rest)

theorem joinSp_single (l : List Char) : JoinSp [l] l := by
  have h := JoinSp.cons l [] [] [] (by simp) JoinSp.nil
  simpa using h

theorem wrapLoopF_joins (w : Nat) (hw : 1 ≤ w) :
    ∀ (f : Nat) (line : List Char), line.length ≤ f →
      JoinSp (wrapLoopF w f line) line := by
  intro f
  induction f with
  | zero =>
    intro line h1
    have hnil : line = [] := List.length_eq_zero.mp (Nat.le_zero.mp h1)
    subst hnil
    simpa [wrapLoopF] using JoinSp.nil
  | succ f ih =>
    intro line h1
    simp only [wrapLoopF]
    split_ifs with hc hz
    · have hsep : ∀ x ∈ (line.drop (breakPoint line w)).takeWhile (· == ' '), x = ' ' := by
        intro x hx
        have := List.mem_takeWhile_imp hx
        simpa using this
      have hrest : ((line.drop (breakPoint line w)).dropWhile (· == ' ')).length ≤ f := by
        have := rest_length_lt line w hw hc
        omega
      have h := JoinSp.cons (line.take (breakPoint line w)) ((line.drop (breakPoint line w)).takeWhile (· == ' '))
        (wrapLoopF w f ((line.drop (breakPoint line w)).dropWhile (· == ' ')))
        ((line.drop (breakPoint line w)).dropWhile (· == ' ')) hsep (ih _ hrest)
      have hdecomp : line.take (breakPoint line w) ++ (line.drop (breakPoint line w)).takeWhile (· == ' ') ++
          (line.drop (breakPoint line w)).dropWhile (· == ' ') = line := by
        rw [List.append_assoc, List.takeWhile_append_dropWhile, List.take_append_drop]
      rwa [hdecomp] at h
    · have hnil : line = [] := List.length_eq_zero.mp hz
      subst hnil
      exact JoinSp.nil
    · exact joinSp_single line

theorem joinSp_filter {cs : List (List Char)} {l : List Char} (h : JoinSp cs l) :
    cs.flatten.filter (fun c => !(c == ' ')) = l.filter (fun c => !(c == ' ')) := by
  induction h with
  | nil => rfl
  | cons c sep cs rest hsep hj ih =>
    have hsepf : sep.filter (fun c => !(c == ' ')) = [] := by
      induction sep with
      | nil => rfl
      | cons x xs ihx =>
        have hx : x = ' ' := hsep x (by simp)
        rw [List.filter_cons_of_neg (by simp [hx])]
        exact ihx (fun y hy => hsep y (by simp [hy]))
    simp only [List.flatten_cons, List.filter_append, ih, hsepf]
    simp

theorem wrapLine_joins (line : List Char) (w : Nat) (hw : 1 ≤ w) :
    JoinSp (wrapLine line w) line := by
  unfold wrapLine
  split_ifs with h
  · exact joinSp_single line
  · exact wrapLoopF_joins w hw line.length line (Nat.le_refl _)

theorem effWidth_pos (width : Int) : 1 ≤ effWidth width := by
  unfold effWidth
  split_ifs with h <;> omega

/-- C5: the wrapper is lossless in content.  For any input text and the
effective width (which is the given width whenever it is ≥ 1), the output is
the per-line wrap results concatenated in order; each input line is exactly
its display chunks interleaved with runs of spaces located at the break
points (`JoinSp`), so re-joining the chunks differs from the input only in
whitespace at break points; consequently no non-space character is dropped;
and empty input lines are preserved as empty output lines. -/
theorem wrap_lossless (text : List Char) (width : Int) :
    wrapTextL text width =
      ((splitLinesL text).map (fun l => wrapLine l (effWidth width))).flatten ∧
    (∀ l ∈ splitLinesL text, JoinSp (wrapLine l (effWidth width)) l) ∧
    (∀ l ∈ splitLinesL text,
      (wrapLine l (effWidth width)).flatten.filter (fun c => !(c == ' ')) =
        l.filter (fun c => !(c == ' '))) ∧
    (∀ l ∈ splitLinesL text, l = [] → wrapLine l (effWidth width) = [[]]) := by
  refine ⟨rfl, fun l _ => wrapLine_joins l _ (effWidth_pos width),
    fun l _ => joinSp_filter (wrapLine_joins l _ (effWidth_pos width)),
    fun l _ hl => ?_⟩
  subst hl
  unfold wrapLine
  rw [if_pos (by simp)]

theorem wrap_lossless_witness :
    JoinSp (wrapLine "ab cdefgh".toList (effWidth 4)) "ab cdefgh".toList ∧
    (wrapLine "ab cdefgh".toList (effWidth 4)).flatten.filter (fun c => !(c == ' ')) =
      "ab cdefgh".toList.filter (fun c => !(c == ' ')) :=
  ⟨(wrap_lossless "ab cdefgh".toList 4).2.1 "ab cdefgh".toList (by decide),
   (wrap_lossless "ab cdefgh".toList 4).2.2.1 "ab cdefgh".toList (by decide)⟩

theorem scanBreak_of_none (line : List Char) (w : Nat) (n : Nat)
    (h : ∀ i, w / 2 < i → i ≤ w / 2 + n → ¬(i < line.length ∧ line.getD i 'A' = ' ')) :
    scanBreak line w n = w := by
  induction n with
  | zero => rfl
  | succ n ih =>
    simp only [scanBreak]
    rw [if_neg (h (w / 2 + n + 1) (by omega) (by omega))]
    exact ih (fun i h1 h2 => h i h1 (by omega))

theorem scanBreak_found (line : List Char) (w : Nat) (n : Nat)
    (h : ∃ i, w / 2 < i ∧ i ≤ w / 2 + n ∧ i < line.length ∧ line.getD i 'A' = ' ') :
    w / 2 < scanBreak line w n ∧ scanBreak line w n ≤ w / 2 + n ∧
    line.getD (scanBreak line w n) 'A' = ' ' ∧
    (∀ j, scanBreak line w n < j → j ≤ w / 2 + n →
      ¬(j < line.length ∧ line.getD j 'A' = ' ')) := by
  induction n with
  | zero =>
    exfalso
    obtain ⟨i, h1, h2, _⟩ := h
    omega
  | succ n ih =>
    simp only [scanBreak]
    split_ifs with hc
    · exact ⟨by omega, by omega, hc.2, fun j hj1 hj2 => by omega⟩
    · have hbelow : ∃ i, w / 2 < i ∧ i ≤ w / 2 + n ∧ i < line.length ∧
          line.getD i 'A' = ' ' := by
        obtain ⟨i, h1, h2, h3, h4⟩ := h
        refine ⟨i, h1, ?_, h3, h4⟩
        rcases Nat.lt_or_ge i (w / 2 + n + 1) with hi | hi
        · omega
        · exfalso
          have hi2 : i = w / 2 + n + 1 := by omega
          exact hc (hi2 ▸ ⟨h3, h4⟩)
      obtain ⟨ha, hb, hd, he⟩ := ih hbelow
      refine ⟨ha, by omega, hd, fun j hj1 hj2 => ?_⟩
      rcases Nat.lt_or_ge j (w / 2 + n + 1) with hj | hj
      · exact he j hj1 (by omega)
      · have : j = w / 2 + n + 1 := by omega
        rw [this]; exact hc

/-- C7: for a line longer than the width, the wrapper splits at the last
space with index in `(width/2, width]` when one exists, and otherwise
hard-breaks at exactly the width boundary (`breakPoint = width`, first chunk
of length exactly `breakPoint`); the continuation line is the remainder with
its leading spaces trimmed; and a non-positive width is replaced by the
default safe width 100 rather than rejected. -/
theorem wrap_split_points (line : List Char) (w : Nat) (hw : 1 ≤ w)
    (hl : w < line.length) :
    ((∀ i, w / 2 < i → i ≤ w → line.getD i 'A' ≠ ' ') → breakPoint line w = w) ∧
    ((∃ i, w / 2 < i ∧ i ≤ w ∧ line.getD i 'A' = ' ') →
      w / 2 < breakPoint line w ∧ breakPoint line w ≤ w ∧
      line.getD (breakPoint line w) 'A' = ' ' ∧
      (∀ j, breakPoint line w < j → j ≤ w → line.getD j 'A' ≠ ' ')) ∧
    wrapLine line w =
      line.take (breakPoint line w) ::
        wrapRest ((line.drop (breakPoint line w)).dropWhile (· == ' ')) w ∧
    (line.take (breakPoint line w)).length = breakPoint line w ∧
    (∀ (t : List Char) (width : Int), width ≤ 0 → wrapTextL t width = wrapTextL t 100) := by
  refine ⟨fun h => ?_, fun h => ?_, ?_, ?_, fun t width hneg => ?_⟩
  · unfold breakPoint
    apply scanBreak_of_none
    intro i h1 h2
    rintro ⟨_, hsp⟩
    exact h i h1 (by omega) hsp
  · obtain ⟨i, h1, h2, h3⟩ := h
    have hfound := scanBreak_found line w (w - w / 2)
      ⟨i, h1, by omega, by omega, h3⟩
    unfold breakPoint
    obtain ⟨ha, hb, hd, he⟩ := hfound
    refine ⟨ha, by omega, hd, fun j hj1 hj2 hsp => ?_⟩
    exact he j hj1 (by omega) ⟨by omega, hsp⟩
  · unfold wrapLine
    rw [if_neg (by omega)]
    obtain ⟨k, hk⟩ : ∃ k, line.length = k + 1 := ⟨line.length - 1, by omega⟩
    conv_lhs => rw [hk]
    simp only [wrapLoopF]
    rw [if_pos hl]
    congr 1
    unfold wrapRest
    exact wrapLoopF_fuel w hw k _ _
      (by have := rest_length_lt line w hw hl; omega) (Nat.le_refl _)
  · have := breakPoint_le line w
    simp only [List.length_take]
    omega
  · have hew : effWidth width = effWidth 100 := by
      unfold effWidth
      rw [if_pos hneg, if_neg (by omega)]
      decide
    unfold wrapTextL
    rw [hew]

theorem wrap_split_points_witness :
    breakPoint "ab cdefgh".toList 4 = 4 ∧
    wrapLine "ab cdefgh".toList 4 =
      "ab cdefgh".toList.take (breakPoint "ab cdefgh".toList 4) ::
        wrapRest (("ab cdefgh".toList.drop
          (breakPoint "ab cdefgh".toList 4)).dropWhile (· == ' ')) 4 :=
  ⟨(wrap_split_points "ab cdefgh".toList 4 (by decide) (by decide)).1
    (by intro i h1 h2; interval_cases i <;> decide),
   (wrap_split_points "ab cdefgh".toList 4 (by decide) (by decide)).2.2.1⟩
